import Mathlib

/-!
Verification of the stale-branch deletion tool (`src/pkg_32828/run.py`).

The data model and operations below are a shallow embedding of the Python
source: a repository handle exposes its default branch name, its branches
(name, protected flag, last-commit timestamp) and its open pull requests
(base and head branch names).  Timestamps are modelled as integers (UTC
seconds); string formatting of timestamps is modelled by `toString`.
-/

/-- A branch as returned by the hosting API: name, protection flag, and the
last-commit timestamp `branch.commit.commit.committer.date`. -/
structure Branch where
  name : String
  protectedFlag : Bool
  commitDate : Int
  deriving DecidableEq, Repr

/-- An open pull request: base and head branch names (`pull.base.ref`,
`pull.head.ref`). -/
structure Pull where
  base : String
  head : String
  deriving DecidableEq, Repr

/-- A repository handle: default branch name, list of branches
(`repo.get_branches()`), list of open pull requests
(`repo.get_pulls(state=open)`). -/
structure Repo where
  default_branch : String
  branches : List Branch
  pulls : List Pull
  deriving Repr

/-- `repo.get_branch(name)`: fetch a branch by name; raises (here: `none`)
when no branch has that name. -/
def Repo.get_branch (repo : Repo) (name : String) : Option Branch :=
  repo.branches.find? (fun b => b.name = name)

/-- Embedding of `get_exempt_branches`: starting from the user-supplied
exclusion set, add the default branch, every protected branch name, and the
base and head branch names of every open pull request, in source order. -/
def get_exempt_branches (repo : Repo) (exclude_branches : Finset String) :
    Finset String :=
  let s1 := insert repo.default_branch exclude_branches
  let s2 := repo.branches.foldl
    (fun s b => if b.protectedFlag then insert b.name s else s) s1
  repo.pulls.foldl (fun s p => insert p.head (insert p.base s)) s2

/-- A concrete repository matching the spec's test scenario: default branch
`main`, two protected branches, six normal branches, one open PR. -/
def demoRepo : Repo :=
  { default_branch := "main"
    branches :=
      [⟨"protected_01", true, 0⟩, ⟨"protected_02", true, 0⟩,
       ⟨"normal_01", false, -10⟩, ⟨"normal_02", false, -15⟩,
       ⟨"normal_03", false, -5⟩, ⟨"normal_04", false, -2⟩,
       ⟨"normal_05", false, -20⟩, ⟨"normal_06", false, -8⟩]
    pulls := [⟨"dev", "feature1"⟩] }

/-- Embedding of `get_qualified_branches`: iterate over every branch,
increment the total count unconditionally, and append the branch name to
the qualified list when the name is not exempt and the cutoff is strictly
greater than the branch's last-commit timestamp. -/
def get_qualified_branches (repo : Repo) (exempt_branches : Finset String)
    (branch_maximum_idle_cutoff : Int) : List String × Nat :=
  repo.branches.foldl
    (fun acc branch =>
      if branch.name ∉ exempt_branches ∧
          branch_maximum_idle_cutoff > branch.commitDate
      then (acc.1 ++ [branch.name], acc.2 + 1)
      else (acc.1, acc.2 + 1))
    ([], 0)

/-- The qualification test of the loop body, as a Boolean predicate. -/
def qualifies (exempt : Finset String) (cutoff : Int) (b : Branch) : Bool :=
  decide (b.name ∉ exempt ∧ cutoff > b.commitDate)

/-- The two banner lines printed by `delete_branches` before any per-branch
processing. -/
def headerLines (branch_max_idle_cutoff : Int) : List String :=
  [s!"Deleting Branch(es) older than {branch_max_idle_cutoff}",
   "---------------------------------------------------"]

/-- The per-branch confirmation line printed by `delete_branches` (using the
last-commit time fetched via `repo.get_branch`). -/
def confirmLine (repo : Repo) (qualified_branch : String) : String :=
  match repo.get_branch qualified_branch with
  | some branch =>
      s!"✅ Deleted branch (last update {branch.commitDate}): {qualified_branch}"
  | none => ""

/-- The loop body of `delete_branches`: for each qualified branch name,
fetch the branch (`repo.get_branch`, one read per branch), delete it unless
`dry_run`, and print a confirmation line.  Result: (printed lines, get-branch
calls, delete calls, completed-normally flag); a failed branch fetch models
the raised exception (loop stops, `false` flag). -/
def deleteLoop (repo : Repo) (dry_run : Bool) :
    List String → List String × List String × List String × Bool
  | [] => ([], [], [], true)
  | n :: rest =>
    match repo.get_branch n with
    | none => ([], [n], [], false)
    | some branch =>
      let line :=
        s!"✅ Deleted branch (last update {branch.commitDate}): {n}"
      let r := deleteLoop repo dry_run rest
      (line :: r.1, n :: r.2.1,
       (if dry_run then r.2.2.1 else n :: r.2.2.1), r.2.2.2)

/-- Embedding of `delete_branches`: print the banner; if the qualified list
is non-empty run the deletion loop, otherwise print the distinct
"no qualified branch" message; return `True` (the `true` completion flag). -/
def delete_branches (repo : Repo) (dry_run : Bool)
    (branch_max_idle_cutoff : Int) (qualified_branches : List String) :
    List String × List String × List String × Bool :=
  if qualified_branches.length > 0 then
    let r := deleteLoop repo dry_run qualified_branches
    (headerLines branch_max_idle_cutoff ++ r.1, r.2.1, r.2.2.1, r.2.2.2)
  else
    (headerLines branch_max_idle_cutoff ++
       ["There is no qualified branch to delete"], [], [], true)

/-- A heap of Python set objects: references are naturals; the store maps
each reference to the current contents of the set object behind it. -/
def Store := Nat → Finset String

/-- `s.add(x)` performed on the set object behind reference `r`. -/
def refAdd (st : Store) (r : Nat) (x : String) : Store :=
  fun i => if i = r then insert x (st i) else st i

/-- Embedding of `get_exempt_branches` at the level of object references:
every `exclude_branches.add(...)` of the source mutates the set object
behind the reference `r` that was passed in, and the function returns that
same reference.  Result: (final store, returned reference). -/
def get_exempt_branches_ref (repo : Repo) (st : Store) (r : Nat) :
    Store × Nat :=
  let st1 := refAdd st r repo.default_branch
  let st2 := repo.branches.foldl
    (fun s b => if b.protectedFlag then refAdd s r b.name else s) st1
  let st3 := repo.pulls.foldl
    (fun s p => refAdd (refAdd s r p.base) r p.head) st2
  (st3, r)

/-- The `exclude_branch` argument of `check_user_inputs` as a Python value:
`None`, a set of strings, or any other (non-set) value. -/
inductive ExcludeArg where
  | noneV
  | setV (s : Finset String)
  | otherV

/-- The `max_idle_days` argument of `check_user_inputs` as a Python value:
`None`, an `int`, or any other (non-int, e.g. string) value. -/
inductive MaxIdleArg where
  | noneV
  | intV (n : Int)
  | otherV

/-- The first guard of `check_user_inputs`:
`exclude_branch is not None and not isinstance(exclude_branch, set)`. -/
def badExclude : ExcludeArg → Bool
  | ExcludeArg.otherV => true
  | _ => false

/-- The second guard of `check_user_inputs`:
`max_idle_days is not None and (not isinstance(max_idle_days, int) or
max_idle_days <= 0)`. -/
def badMaxIdle : MaxIdleArg → Bool
  | MaxIdleArg.noneV => false
  | MaxIdleArg.intV n => decide (n ≤ 0)
  | MaxIdleArg.otherV => true

/-- Substring occurrence test on character lists (Python's `in` on `str`). -/
def containsSub (pat : List Char) : List Char → Bool
  | [] => pat.isEmpty
  | c :: rest => pat.isPrefixOf (c :: rest) || containsSub pat rest

/-- Python's `'github.com' in repo_url` substring test. -/
def containsGithub (repo_url : String) : Bool :=
  containsSub "github.com".toList repo_url.toList

/-- Embedding of `check_user_inputs`: the three guards in source order; the
`repo` argument is `some _` exactly when the Python value is a
`Repository.Repository` instance. -/
def check_user_inputs (repo : Option Repo) (repo_url : String)
    (exclude_branch : ExcludeArg) (max_idle_days : MaxIdleArg) : Bool :=
  if badExclude exclude_branch then false
  else if badMaxIdle max_idle_days then false
  else if !containsGithub repo_url && repo.isNone then false
  else true

/-- Split a character list on a separator character (Python `str.split`).
The last `min 2` segments equal Python's `repo_url.rsplit('/', 2)[-2:]`. -/
def splitOnChar (sep : Char) : List Char → List (List Char)
  | [] => [[]]
  | c :: rest =>
    if c = sep then [] :: splitOnChar sep rest
    else
      match splitOnChar sep rest with
      | [] => [[c]]
      | seg :: segs => (c :: seg) :: segs

/-- Join character-list segments with `/` (Python `'/'.join`). -/
def joinSlash : List (List Char) → List Char
  | [] => []
  | [seg] => seg
  | seg :: segs => seg ++ '/' :: joinSlash segs

/-- Replace every occurrence of `pat` (non-overlapping, left to right) by
`rep` (Python `str.replace`); `fuel` bounds the recursion and is
instantiated with the input length, which suffices for non-empty `pat`. -/
def replaceFuel (pat rep : List Char) : Nat → List Char → List Char
  | 0, rest => rest
  | _ + 1, [] => []
  | fuel + 1, c :: rest =>
    if ¬ pat.isEmpty ∧ pat.isPrefixOf (c :: rest) then
      rep ++ replaceFuel pat rep fuel ((c :: rest).drop pat.length)
    else c :: replaceFuel pat rep fuel rest

/-- Python `s.replace(pat, rep)` on strings. -/
def pyReplace (s pat rep : String) : String :=
  String.mk (replaceFuel pat.toList rep.toList s.toList.length s.toList)

/-- Embedding of `get_owner_repo`:
`'/'.join(repo_url.rsplit('/', 2)[-2:])` followed by the three `replace`
calls of the source. -/
def get_owner_repo (repo_url : String) : String :=
  let parts := splitOnChar '/' repo_url.toList
  let lastTwo := parts.drop (parts.length - 2)
  let joined := String.mk (joinSlash lastTwo)
  pyReplace (pyReplace (pyReplace joined ".git" "") "git@github.com:" "")
    "https://github.com/" ""

/-- Python's `int(s)` on a string: optional surrounding whitespace, optional
sign, then decimal digits; `None` when the string is not a valid integer
literal (the `ValueError` case, suppressed by the caller). -/
def pyParseInt (s : String) : Option Int :=
  let cs := (s.toList.dropWhile Char.isWhitespace).reverse.dropWhile
    Char.isWhitespace |>.reverse
  let signedDigits : Bool × List Char :=
    match cs with
    | '-' :: rest => (true, rest)
    | '+' :: rest => (false, rest)
    | other => (false, other)
  if ¬ signedDigits.2.isEmpty ∧ signedDigits.2.all Char.isDigit then
    let n := signedDigits.2.foldl
      (fun acc d => acc * 10 + (d.toNat - '0'.toNat)) 0
    some (if signedDigits.1 then -(n : Int) else (n : Int))
  else none

/-- The `max_idle_days` value after `with suppress(ValueError):
max_idle_days = int(max_idle_days)`: an `int` when the CLI string parses,
otherwise the original string (a non-int value). -/
def parseMaxIdle (s : String) : MaxIdleArg :=
  match pyParseInt s with
  | some n => MaxIdleArg.intV n
  | none => MaxIdleArg.otherV

/-- The external collaborators of `main`: the `GH_TOKEN` environment
variable read by `get_auth`, and the remote `gh.get_repo` lookup (`none`
models the raised exception). -/
structure Env where
  gh_token : Option String
  fetchRepo : String → Option Repo

/-- Network calls made against the hosting API during one pipeline run. -/
inductive Event where
  | fetchRepoCall (owner_repo : String)
  | listBranchesCall
  | listPullsCall
  | getBranchCall (name : String)
  | deleteBranchCall (name : String)
  deriving DecidableEq, Repr

/-- Embedding of `main`: parse max-idle-days (suppressing the parse error),
authenticate, fetch the repository, validate the inputs, then run the
exemption resolver, the idle filter and the deletion executor.  Result:
(process exit code, network calls made, in order).  Seconds per day give the
cutoff `now - max_idle_days * 86400`. -/
def mainCommand (dry_run : Bool) (repo_url : String) (exclude_branch : List String)
    (max_idle_days_raw : String) (env : Env) (now : Int) : Nat × List Event :=
  let exclude_branches : Finset String := exclude_branch.toFinset
  let max_idle_days := parseMaxIdle max_idle_days_raw
  match env.gh_token with
  | none => (1, [])
  | some _ =>
    let owner_repo := get_owner_repo repo_url
    match env.fetchRepo owner_repo with
    | none => (1, [Event.fetchRepoCall owner_repo])
    | some repo =>
      if check_user_inputs (some repo) repo_url
          (ExcludeArg.setV exclude_branches) max_idle_days then
        let days := match max_idle_days with
          | MaxIdleArg.intV k => k
          | _ => 0
        let cutoff := now - days * 86400
        let exempt := get_exempt_branches repo exclude_branches
        let q := get_qualified_branches repo exempt cutoff
        let d := delete_branches repo dry_run cutoff q.1
        ((if d.2.2.2 then 0 else 1),
         Event.fetchRepoCall owner_repo :: Event.listBranchesCall ::
           Event.listPullsCall :: Event.listBranchesCall ::
           (d.2.1.map Event.getBranchCall ++
            d.2.2.1.map Event.deleteBranchCall))
      else (1, [Event.fetchRepoCall owner_repo])

/-- An environment with a valid token and one known repository. -/
def demoEnv : Env :=
  { gh_token := some "token"
    fetchRepo := fun s => if s = "owner/repo" then some demoRepo else none }

lemma mem_foldl_protected (l : List Branch) (s : Finset String) (x : String) :
    x ∈ l.foldl (fun s b => if b.protectedFlag then insert b.name s else s) s ↔
      x ∈ s ∨ ∃ b ∈ l, b.protectedFlag ∧ b.name = x := by
  induction l generalizing s with
  | nil => simp
  | cons b l ih =>
    by_cases hb : b.protectedFlag
    · simp only [List.foldl_cons, hb, if_true, ih, Finset.mem_insert, List.mem_cons]
      aesop
    · simp only [List.foldl_cons, hb, if_false, ih, List.mem_cons]
      aesop

lemma mem_foldl_pulls (l : List Pull) (s : Finset String) (x : String) :
    x ∈ l.foldl (fun s p => insert p.head (insert p.base s)) s ↔
      x ∈ s ∨ ∃ p ∈ l, p.base = x ∨ p.head = x := by
  induction l generalizing s with
  | nil => simp
  | cons p l ih =>
    simp only [List.foldl_cons, ih, Finset.mem_insert, List.mem_cons]
    aesop

lemma mem_get_exempt_branches (repo : Repo) (ex : Finset String) (x : String) :
    x ∈ get_exempt_branches repo ex ↔
      x ∈ ex ∨ x = repo.default_branch ∨
      (∃ b ∈ repo.branches, b.protectedFlag ∧ b.name = x) ∨
      (∃ p ∈ repo.pulls, p.base = x ∨ p.head = x) := by
  unfold get_exempt_branches
  simp only [mem_foldl_pulls, mem_foldl_protected, Finset.mem_insert]
  aesop

/-- C1: `get_exempt_branches` returns exactly the union of the user-supplied
exclusions, the default branch name, the names of the protected branches and
the base/head branch names of the open pull requests; in particular the
result contains the default branch, every protected branch name, every PR
base/head name, and every user-supplied exclusion, independently of
enumeration order. -/
theorem exemption_resolver_union (repo : Repo) (ex : Finset String) :
    get_exempt_branches repo ex =
      ex ∪ {repo.default_branch} ∪
        ((repo.branches.filter (fun b => b.protectedFlag)).map Branch.name).toFinset ∪
        ((repo.pulls.map Pull.base).toFinset ∪ (repo.pulls.map Pull.head).toFinset) ∧
    repo.default_branch ∈ get_exempt_branches repo ex ∧
    (∀ b ∈ repo.branches, b.protectedFlag → b.name ∈ get_exempt_branches repo ex) ∧
    (∀ p ∈ repo.pulls,
      p.base ∈ get_exempt_branches repo ex ∧ p.head ∈ get_exempt_branches repo ex) ∧
    ex ⊆ get_exempt_branches repo ex := by
  refine ⟨?_, ?_, ?_, ?_, ?_⟩
  · ext x
    simp only [mem_get_exempt_branches, Finset.mem_union, Finset.mem_singleton,
      List.mem_toFinset, List.mem_map, List.mem_filter]
    aesop
  · rw [mem_get_exempt_branches]; tauto
  · intro b hb hp; rw [mem_get_exempt_branches]
    exact Or.inr (Or.inr (Or.inl ⟨b, hb, hp, rfl⟩))
  · intro p hp
    constructor <;> rw [mem_get_exempt_branches]
    · exact Or.inr (Or.inr (Or.inr ⟨p, hp, Or.inl rfl⟩))
    · exact Or.inr (Or.inr (Or.inr ⟨p, hp, Or.inr rfl⟩))
  · intro x hx; rw [mem_get_exempt_branches]; exact Or.inl hx

/-- Witness for C1 at the spec's scenario repository and exclusion set. -/
theorem exemption_resolver_union_witness :
    get_exempt_branches demoRepo {"custom-exempt"} =
      ({"custom-exempt"} : Finset String) ∪ {demoRepo.default_branch} ∪
        ((demoRepo.branches.filter (fun b => b.protectedFlag)).map Branch.name).toFinset ∪
        ((demoRepo.pulls.map Pull.base).toFinset ∪ (demoRepo.pulls.map Pull.head).toFinset) ∧
    demoRepo.default_branch ∈ get_exempt_branches demoRepo {"custom-exempt"} ∧
    (∀ b ∈ demoRepo.branches, b.protectedFlag →
      b.name ∈ get_exempt_branches demoRepo {"custom-exempt"}) ∧
    (∀ p ∈ demoRepo.pulls,
      p.base ∈ get_exempt_branches demoRepo {"custom-exempt"} ∧
      p.head ∈ get_exempt_branches demoRepo {"custom-exempt"}) ∧
    ({"custom-exempt"} : Finset String) ⊆ get_exempt_branches demoRepo {"custom-exempt"} :=
  exemption_resolver_union demoRepo {"custom-exempt"}

lemma foldl_qualified (exempt : Finset String) (cutoff : Int) (l : List Branch)
    (acc : List String × Nat) :
    l.foldl
      (fun acc branch =>
        if branch.name ∉ exempt ∧ cutoff > branch.commitDate
        then (acc.1 ++ [branch.name], acc.2 + 1)
        else (acc.1, acc.2 + 1))
      acc =
      (acc.1 ++ (l.filter (qualifies exempt cutoff)).map Branch.name,
       acc.2 + l.length) := by
  induction l generalizing acc with
  | nil => simp
  | cons b l ih =>
    by_cases hq : b.name ∉ exempt ∧ cutoff > b.commitDate
    · have hqb : qualifies exempt cutoff b = true := by
        simp [qualifies, hq]
      rw [List.foldl_cons, if_pos hq, ih, List.filter_cons_of_pos hqb]
      simp only [List.map_cons, List.length_cons, Prod.mk.injEq,
        List.append_assoc, List.singleton_append]
      exact ⟨by simp, by omega⟩
    · have hqb : ¬ qualifies exempt cutoff b = true := by
        simp only [qualifies, decide_eq_true_eq]
        exact hq
      rw [List.foldl_cons, if_neg hq, ih,
        List.filter_cons_of_neg (by simpa using hqb)]
      simp only [List.length_cons, Prod.mk.injEq]
      exact ⟨by simp, by omega⟩

lemma get_qualified_branches_eq (repo : Repo) (exempt : Finset String)
    (cutoff : Int) :
    get_qualified_branches repo exempt cutoff =
      ((repo.branches.filter (qualifies exempt cutoff)).map Branch.name,
       repo.branches.length) := by
  unfold get_qualified_branches
  rw [foldl_qualified]
  simp

/-- C7: the total branch count returned by `get_qualified_branches` equals
the number of branches enumerated from the repository handle, regardless of
the exemption set and the cutoff. -/
theorem idle_filter_total_count (repo : Repo) (exempt : Finset String)
    (cutoff : Int) :
    (get_qualified_branches repo exempt cutoff).2 = repo.branches.length := by
  rw [get_qualified_branches_eq]

/-- C2: provided branch names are unique (as they are for a real repository),
a branch's name appears in the qualified list iff the name is not in the
exemption set and its last-commit timestamp is strictly earlier than the
cutoff. -/
theorem idle_filter_qualification (repo : Repo) (exempt : Finset String)
    (cutoff : Int) (hnodup : (repo.branches.map Branch.name).Nodup)
    (b : Branch) (hb : b ∈ repo.branches) :
    b.name ∈ (get_qualified_branches repo exempt cutoff).1 ↔
      (b.name ∉ exempt ∧ cutoff > b.commitDate) := by
  rw [get_qualified_branches_eq]
  simp only [List.mem_map, List.mem_filter]
  constructor
  · rintro ⟨b2, ⟨hb2, hq⟩, hn⟩
    have : b2 = b := List.inj_on_of_nodup_map hnodup hb2 hb hn
    subst this
    simpa [qualifies] using hq
  · intro h
    exact ⟨b, ⟨hb, by simpa [qualifies] using h⟩, rfl⟩

/-- Witness for C2: with exemption set `{main}` and cutoff `0`, branch
`normal_04` (last commit at `-2`) is qualified. -/
theorem idle_filter_qualification_witness :
    (Branch.mk "normal_04" false (-2)).name ∈
        (get_qualified_branches demoRepo {"main"} 0).1 ↔
      ((Branch.mk "normal_04" false (-2)).name ∉ ({"main"} : Finset String) ∧
        (0 : Int) > (Branch.mk "normal_04" false (-2)).commitDate) :=
  idle_filter_qualification demoRepo {"main"} 0 (by decide)
    (Branch.mk "normal_04" false (-2)) (by decide)

lemma deleteLoop_resolved (repo : Repo) (dry_run : Bool) (l : List String)
    (h : ∀ n ∈ l, (repo.get_branch n).isSome) :
    deleteLoop repo dry_run l =
      (l.map (confirmLine repo), l, (if dry_run then [] else l), true) := by
  induction l with
  | nil => simp [deleteLoop]
  | cons n rest ih =>
    obtain ⟨b, hb⟩ := Option.isSome_iff_exists.mp (h n (List.mem_cons_self n rest))
    have hrest : ∀ m ∈ rest, (repo.get_branch m).isSome :=
      fun m hm => h m (List.mem_cons_of_mem n hm)
    simp only [deleteLoop, hb, ih hrest, List.map_cons, confirmLine]
    cases dry_run <;> simp [hb]

/-- C3: with the dry-run flag true, `delete_branches` issues no deletion
call for any branch of the qualified list, yet still prints one per-branch
confirmation line (with the branch's last-commit time) for every branch of
the list. -/
theorem dry_run_no_deletion (repo : Repo) (cutoff : Int)
    (qualified : List String)
    (h : ∀ n ∈ qualified, (repo.get_branch n).isSome) :
    (delete_branches repo true cutoff qualified).2.2.1 = [] ∧
    (qualified ≠ [] →
      (delete_branches repo true cutoff qualified).1 =
        headerLines cutoff ++ qualified.map (confirmLine repo)) := by
  constructor
  · by_cases hq : qualified.length > 0
    · simp [delete_branches, if_pos hq, deleteLoop_resolved repo true qualified h]
    · simp [delete_branches, if_neg hq]
  · intro hne
    have hq : qualified.length > 0 := List.length_pos.mpr hne
    simp [delete_branches, if_pos hq, deleteLoop_resolved repo true qualified h]

/-- Witness for C3 at a concrete repository and qualified list. -/
theorem dry_run_no_deletion_witness :
    (∀ n ∈ ["normal_05"], (demoRepo.get_branch n).isSome = true) ∧
    ((delete_branches demoRepo true 0 ["normal_05"]).2.2.1 = [] ∧
     ((["normal_05"] : List String) ≠ [] →
       (delete_branches demoRepo true 0 ["normal_05"]).1 =
         headerLines 0 ++ ["normal_05"].map (confirmLine demoRepo))) :=
  ⟨by decide, dry_run_no_deletion demoRepo 0 ["normal_05"] (by decide)⟩

/-- C8: on an empty qualified list, `delete_branches` prints the banner
followed by exactly the distinct "There is no qualified branch to delete"
message, performs no branch read, no deletion and no per-branch confirmation
line, and returns success. -/
theorem empty_qualified_list (repo : Repo) (dry_run : Bool) (cutoff : Int) :
    delete_branches repo dry_run cutoff [] =
      (headerLines cutoff ++ ["There is no qualified branch to delete"],
       [], [], true) := by
  simp [delete_branches]

/-- C10: on a non-empty qualified list whose names all resolve, the printed
output of `delete_branches` is identical for dry-run true and false, both
modes issue exactly one get-branch read per qualified branch, and only the
non-dry-run mode issues the deletion calls (one per branch). -/
theorem dry_run_output_equivalence (repo : Repo) (cutoff : Int)
    (qualified : List String) (hne : qualified ≠ [])
    (h : ∀ n ∈ qualified, (repo.get_branch n).isSome) :
    (delete_branches repo true cutoff qualified).1 =
      (delete_branches repo false cutoff qualified).1 ∧
    (delete_branches repo true cutoff qualified).2.1 = qualified ∧
    (delete_branches repo false cutoff qualified).2.1 = qualified ∧
    (delete_branches repo true cutoff qualified).2.2.1 = [] ∧
    (delete_branches repo false cutoff qualified).2.2.1 = qualified := by
  have hq : qualified.length > 0 := List.length_pos.mpr hne
  simp [delete_branches, if_pos hq,
    deleteLoop_resolved repo true qualified h,
    deleteLoop_resolved repo false qualified h]

/-- Witness for C10 at a concrete repository and qualified list. -/
theorem dry_run_output_equivalence_witness :
    ((["normal_04", "normal_06"] : List String) ≠ [] ∧
     ∀ n ∈ ["normal_04", "normal_06"], (demoRepo.get_branch n).isSome = true) ∧
    ((delete_branches demoRepo true 0 ["normal_04", "normal_06"]).1 =
       (delete_branches demoRepo false 0 ["normal_04", "normal_06"]).1 ∧
     (delete_branches demoRepo true 0 ["normal_04", "normal_06"]).2.1 =
       ["normal_04", "normal_06"] ∧
     (delete_branches demoRepo false 0 ["normal_04", "normal_06"]).2.1 =
       ["normal_04", "normal_06"] ∧
     (delete_branches demoRepo true 0 ["normal_04", "normal_06"]).2.2.1 = [] ∧
     (delete_branches demoRepo false 0 ["normal_04", "normal_06"]).2.2.1 =
       ["normal_04", "normal_06"]) :=
  ⟨⟨by decide, by decide⟩,
   dry_run_output_equivalence demoRepo 0 ["normal_04", "normal_06"]
     (by decide) (by decide)⟩

lemma foldl_refAdd_protected (l : List Branch) (st : Store) (r i : Nat) :
    (l.foldl (fun s b => if b.protectedFlag then refAdd s r b.name else s) st) i =
      if i = r then
        l.foldl (fun t b => if b.protectedFlag then insert b.name t else t) (st r)
      else st i := by
  induction l generalizing st with
  | nil => by_cases hi : i = r <;> simp [hi]
  | cons b l ih =>
    by_cases hb : b.protectedFlag
    · simp only [List.foldl_cons, hb, if_true, ih]
      by_cases hi : i = r <;> simp [hi, refAdd]
    · simp [List.foldl_cons, hb, ih]

lemma foldl_refAdd_pulls (l : List Pull) (st : Store) (r i : Nat) :
    (l.foldl (fun s p => refAdd (refAdd s r p.base) r p.head) st) i =
      if i = r then
        l.foldl (fun t p => insert p.head (insert p.base t)) (st r)
      else st i := by
  induction l generalizing st with
  | nil => by_cases hi : i = r <;> simp [hi]
  | cons p l ih =>
    simp only [List.foldl_cons, ih]
    by_cases hi : i = r <;> simp [hi, refAdd]

/-- C9: `get_exempt_branches` mutates the caller's exclusion-set object in
place and returns that very same object: the returned reference is the one
passed in, the set behind it afterwards is exactly the exemption set computed
from the passed-in contents, that set contains everything the caller passed
in, and no other object of the store is touched. -/
theorem exemption_resolver_in_place (repo : Repo) (st : Store) (r : Nat) :
    (get_exempt_branches_ref repo st r).2 = r ∧
    (get_exempt_branches_ref repo st r).1 r =
      get_exempt_branches repo (st r) ∧
    st r ⊆ (get_exempt_branches_ref repo st r).1 r ∧
    ∀ i, i ≠ r → (get_exempt_branches_ref repo st r).1 i = st i := by
  have hmain : (get_exempt_branches_ref repo st r).1 r =
      get_exempt_branches repo (st r) := by
    unfold get_exempt_branches_ref get_exempt_branches
    simp [foldl_refAdd_pulls, foldl_refAdd_protected, refAdd]
  refine ⟨rfl, hmain, ?_, ?_⟩
  · intro x hx
    rw [hmain, mem_get_exempt_branches]
    exact Or.inl hx
  · intro i hi
    unfold get_exempt_branches_ref
    simp [foldl_refAdd_pulls, foldl_refAdd_protected, refAdd, hi]

/-- C5 counterexample: with an absent (`None`) max-idle-days and all other
arguments valid, `check_user_inputs` passes instead of failing. -/
theorem check_user_inputs_absent_max_idle_passes :
    check_user_inputs (some demoRepo) "https://github.com/owner/repo"
      (ExcludeArg.setV ∅) MaxIdleArg.noneV = true := by
  rfl

/-- C5 (amended): `check_user_inputs` returns fail whenever the
max-idle-days argument is present and is either not an integer or an
integer that is not positive; an absent (`None`) max-idle-days is not
rejected by this guard. -/
theorem max_idle_days_validation (repo : Option Repo) (repo_url : String)
    (exclude_branch : ExcludeArg) (max_idle_days : MaxIdleArg)
    (h : badMaxIdle max_idle_days = true) :
    check_user_inputs repo repo_url exclude_branch max_idle_days = false := by
  unfold check_user_inputs
  cases hbe : badExclude exclude_branch <;> simp [h, hbe]

/-- Witness for C5 (amended) at the non-numeric string input of the spec's
scenario (`--max-idle-days hello` is not an `int`). -/
theorem max_idle_days_validation_witness :
    badMaxIdle MaxIdleArg.otherV = true ∧
    check_user_inputs (some demoRepo) "https://github.com/owner/repo"
      (ExcludeArg.setV ∅) MaxIdleArg.otherV = false :=
  ⟨rfl, max_idle_days_validation (some demoRepo)
    "https://github.com/owner/repo" (ExcludeArg.setV ∅) MaxIdleArg.otherV rfl⟩

/-- C6 counterexample: the string `xgithub.comx` matches neither the
`https://host/owner/repo[.git]` form nor the `git@host:owner/repo.git` form,
and no resolved repository handle is supplied, yet `check_user_inputs`
passes, because the source only tests that `github.com` occurs as a
substring. -/
theorem check_user_inputs_url_substring_passes :
    check_user_inputs none "xgithub.comx" (ExcludeArg.setV ∅)
      (MaxIdleArg.intV 5) = true := by
  rfl

/-- C6 (amended): `check_user_inputs` returns fail whenever the repository
URL string does not contain `github.com` as a substring and the repo
argument is not an already-resolved repository handle; the guard is a plain
substring test, not a match of the full hosting-URL patterns. -/
theorem repo_url_validation (repo : Option Repo) (repo_url : String)
    (exclude_branch : ExcludeArg) (max_idle_days : MaxIdleArg)
    (hurl : containsGithub repo_url = false) (hrepo : repo = none) :
    check_user_inputs repo repo_url exclude_branch max_idle_days = false := by
  unfold check_user_inputs
  cases hbe : badExclude exclude_branch
  · cases hbm : badMaxIdle max_idle_days <;> simp [hurl, hrepo, hbe, hbm]
  · simp [hbe]

/-- Witness for C6 (amended) at the test suite's `invalid_url` input. -/
theorem repo_url_validation_witness :
    containsGithub "invalid_url" = false ∧ (none : Option Repo) = none ∧
    check_user_inputs none "invalid_url" (ExcludeArg.setV {"main"})
      (MaxIdleArg.intV 15) = false :=
  ⟨rfl, rfl, repo_url_validation none "invalid_url"
    (ExcludeArg.setV {"main"}) (MaxIdleArg.intV 15) rfl rfl⟩

/-- C4 counterexample: on `--max-idle-days hello` the pipeline exits with
code 1 as claimed, but only after the repository-fetch network call
(`gh.get_repo`) has already been made: validation runs after authentication
and repository fetch, so the set of network calls is not empty. -/
theorem validator_after_network_counterexample :
    check_user_inputs (some demoRepo) "https://github.com/owner/repo"
      (ExcludeArg.setV ∅) (parseMaxIdle "hello") = false ∧
    mainCommand true "https://github.com/owner/repo" [] "hello" demoEnv 0 =
      (1, [Event.fetchRepoCall "owner/repo"]) ∧
    ([Event.fetchRepoCall "owner/repo"] : List Event) ≠ [] := by
  refine ⟨rfl, rfl, by simp⟩

/-- C4 (amended): when the token is present, the repository fetch succeeds
and the Input Validator rejects the parameters, the pipeline exits with
code 1 having made exactly one network call — the repository fetch issued
before validation; no branch or pull-request enumeration and no deletion
call is made. -/
theorem validation_failure_exits_after_fetch (dry_run : Bool)
    (repo_url : String) (exclude_branch : List String) (raw : String)
    (env : Env) (now : Int) (repo : Repo) (tok : String)
    (htok : env.gh_token = some tok)
    (hrepo : env.fetchRepo (get_owner_repo repo_url) = some repo)
    (hval : check_user_inputs (some repo) repo_url
        (ExcludeArg.setV exclude_branch.toFinset) (parseMaxIdle raw) = false) :
    mainCommand dry_run repo_url exclude_branch raw env now =
      (1, [Event.fetchRepoCall (get_owner_repo repo_url)]) := by
  simp [mainCommand, htok, hrepo, hval]

/-- Witness for C4 (amended) at the spec's `--max-idle-days hello`
scenario. -/
theorem validation_failure_exits_after_fetch_witness :
    (demoEnv.gh_token = some "token" ∧
     demoEnv.fetchRepo (get_owner_repo "https://github.com/owner/repo") =
       some demoRepo ∧
     check_user_inputs (some demoRepo) "https://github.com/owner/repo"
       (ExcludeArg.setV ([] : List String).toFinset)
       (parseMaxIdle "hello") = false) ∧
    mainCommand false "https://github.com/owner/repo" [] "hello" demoEnv 0 =
      (1, [Event.fetchRepoCall
            (get_owner_repo "https://github.com/owner/repo")]) :=
  ⟨⟨rfl, rfl, rfl⟩,
   validation_failure_exits_after_fetch false "https://github.com/owner/repo"
     [] "hello" demoEnv 0 demoRepo "token" rfl rfl rfl⟩
